import Mathlib

/-!
Verification of the bloomshipper core (shipper.go): fingerprint-range
filtering of block manifests and the fetch orchestration loop.

Fingerprints are uint64 values in Go; only comparisons are performed on
them, so they are modelled as `Nat`. Timestamps (`model.Time`, an int64)
are modelled as `Int`. The `remaining` counter in `Fetch` is a Go `int`
and is modelled as `Int` so that decrementing past zero behaves as in the
source.
-/

namespace Bloomshipper

/-- Model of `type fpRange [2]uint64` with its `minFp`/`maxFp` accessors. -/
structure fpRange where
  minFp : Nat
  maxFp : Nat
deriving Repr, DecidableEq

/-- The Go zero value of `fpRange` is `{0, 0}`. -/
instance : Inhabited fpRange := ⟨⟨0, 0⟩⟩

/-- Model of `BlockRef`: the fields read by the shipper code. -/
structure BlockRef where
  blockPath : String
  minFingerprint : Nat
  maxFingerprint : Nat
  startTimestamp : Int
  endTimestamp : Int
deriving Repr, DecidableEq

/-- Model of `Meta`: the fields read by `findBlocks`. -/
structure Meta where
  blocks : List BlockRef
  tombstones : List BlockRef
deriving Repr, DecidableEq

/-- Model of `getFirstLast`: first and last element of a slice, zero
values when the slice is empty. -/
def getFirstLast {T : Type} [Inhabited T] : List T → T × T
  | [] => (default, default)
  | x :: xs => (x, (x :: xs).getLast (List.cons_ne_nil x xs))

/-- The gap-scan loop at the end of `isOutsideRange`: walks the ranges
with a sliding `prev` cursor and reports whether the block lies strictly
inside a gap between `prev` and the current range. -/
def gapScan (b : BlockRef) : fpRange → List fpRange → Bool
  | _, [] => false
  | prev, fpr :: rest =>
    if b.minFingerprint > prev.maxFp ∧ b.maxFingerprint < fpr.minFp then true
    else gapScan b fpr rest

/-- Model of `isOutsideRange`: time-disjointness check, then overall
fingerprint-bound check via `getFirstLast`, then the gap scan with the
`prev` cursor initialized to the zero range. -/
def isOutsideRange (b : BlockRef) (startTimestamp endTimestamp : Int)
    (fingerprints : List fpRange) : Bool :=
  if b.endTimestamp < startTimestamp ∨ b.startTimestamp > endTimestamp then true
  else
    let fl := getFirstLast fingerprints
    if b.maxFingerprint < fl.1.minFp ∨ b.minFingerprint > fl.2.maxFp then true
    else gapScan b ⟨0, 0⟩ fingerprints

/-- The union of all tombstoned block paths across the metas, modelling
the `outdatedBlocks` set built by the first loop of `findBlocks` (only
membership in the set is ever used). -/
def tombstonedPaths (metas : List Meta) : List String :=
  (metas.map (fun m => m.tombstones.map (fun t => t.blockPath))).flatten

/-- Model of the Go map assignment `blocksSet[block.BlockPath] = block`
on a path-keyed association list: when the path is already present the
stored entry is overwritten, otherwise the entry is appended. -/
def insertBlock (acc : List BlockRef) (b : BlockRef) : List BlockRef :=
  if acc.any (fun x => x.blockPath == b.blockPath) then
    acc.map (fun x => if x.blockPath == b.blockPath then b else x)
  else acc ++ [b]

/-- The body of the second loop of `findBlocks`: skip tombstoned paths,
skip out-of-range blocks, otherwise insert into the path-keyed set. -/
def findBlocksStep (outdated : List String) (startTimestamp endTimestamp : Int)
    (fingerprints : List fpRange) (acc : List BlockRef) (b : BlockRef) : List BlockRef :=
  if outdated.contains b.blockPath then acc
  else if isOutsideRange b startTimestamp endTimestamp fingerprints then acc
  else insertBlock acc b

/-- Model of `findBlocks` up to the final map iteration: the contents of
`blocksSet` after walking every block of every meta in program order.
The Go function then ranges over this map in an unspecified order, so
the possible return values of `findBlocks` are exactly the permutations
of this list (see `FindBlocksResult`). -/
def findBlocksCore (metas : List Meta) (startTimestamp endTimestamp : Int)
    (fingerprints : List fpRange) : List BlockRef :=
  ((metas.map (fun m => m.blocks)).flatten).foldl
    (findBlocksStep (tombstonedPaths metas) startTimestamp endTimestamp fingerprints) []

/-- Characterizes the possible outputs of `findBlocks`: Go map iteration
order is unspecified, so `findBlocks` may return any permutation of the
accumulated path-keyed set. -/
def FindBlocksResult (metas : List Meta) (startTimestamp endTimestamp : Int)
    (fingerprints : List fpRange) (l : List BlockRef) : Prop :=
  l.Perm (findBlocksCore metas startTimestamp endTimestamp fingerprints)

/-- The blocks of the metas, in discovery order, that survive both the
tombstone check and the range check of `findBlocks`. -/
def keptBlocks (metas : List Meta) (startTimestamp endTimestamp : Int)
    (fingerprints : List fpRange) : List BlockRef :=
  ((metas.map (fun m => m.blocks)).flatten).filter
    (fun b => !((tombstonedPaths metas).contains b.blockPath)
      && !(isOutsideRange b startTimestamp endTimestamp fingerprints))

/-- Insertion of a block into a list sorted by `MinFingerprint`, placing
the new element before the first existing element whose key is not
smaller. Used to model the stable sort below. -/
def insertByMinFp (b : BlockRef) : List BlockRef → List BlockRef
  | [] => [b]
  | x :: xs =>
    if b.minFingerprint ≤ x.minFingerprint then b :: x :: xs
    else x :: insertByMinFp b xs

/-- Model of `slices.SortStableFunc` with the comparator of
`getActiveBlockRefs`: a stable sort ascending by `MinFingerprint`
(insertion sort is stable, matching the contract of the Go function). -/
def sortStableByMinFp : List BlockRef → List BlockRef
  | [] => []
  | x :: xs => insertByMinFp x (sortStableByMinFp xs)

/-- Model of Go error values as built by this code: either an error
produced elsewhere, or an error wrapping a cause with an added message,
as `fmt.Errorf` with the `%w` verb does. -/
inductive GoError where
  | base (msg : String)
  | wrapped (msg : String) (cause : GoError)
deriving Repr, DecidableEq

/-- Whether an error carries a wrapping layer of phase context. -/
def hasPhaseContext : GoError → Bool
  | .wrapped _ _ => true
  | .base _ => false

/-- Model of `errors.Unwrap`: the preserved cause of a wrapped error. -/
def causeOf : GoError → Option GoError
  | .wrapped _ c => some c
  | .base _ => none

/-- `math.MaxUint64`. -/
def MaxUint64 : Nat := 2 ^ 64 - 1

/-- Model of `getActiveBlockRefs`, parameterized by the outcome of the
external `client.GetMetas` call and by `iter`, the order in which Go
map iteration emits the values of the path-keyed set built by
`findBlocks` (theorems about it hypothesize that `iter` permutes its
input, which is all the Go specification guarantees). -/
def getActiveBlockRefsModel (metasResult : Except GoError (List Meta))
    (startTimestamp endTimestamp : Int) (fingerprints : List fpRange)
    (iter : List BlockRef → List BlockRef) : Except GoError (List BlockRef) :=
  match metasResult with
  | .error e => .error (GoError.wrapped "error fetching meta.json files" e)
  | .ok metas =>
    .ok (sortStableByMinFp (iter (findBlocksCore metas startTimestamp endTimestamp fingerprints)))

/-- Model of `GetBlockRefs`: calls `getActiveBlockRefs` with the full
fingerprint domain and wraps any error with its own phase context. -/
def GetBlockRefsModel (metasResult : Except GoError (List Meta))
    (from_ through : Int) (iter : List BlockRef → List BlockRef) :
    Except GoError (List BlockRef) :=
  match getActiveBlockRefsModel metasResult from_ through [⟨0, MaxUint64⟩] iter with
  | .error e => .error (GoError.wrapped "error fetching active block references " e)
  | .ok refs => .ok refs

/-- Model of `blockWithQuerier`: the fields the orchestration loop reads
(the opened querier itself is opaque and carries no observable state
beyond its identity, carried here by the block path). -/
structure blockWithQuerier where
  blockPath : String
  minFingerprint : Nat
  maxFingerprint : Nat
deriving Repr, DecidableEq

/-- One outcome of the three-way `select` inside the `Fetch` loop:
observation of context cancellation, a delivery on the error channel,
or a delivery on the result channel. A `Fetch` execution is modelled by
the finite sequence of such outcomes it consumes. -/
inductive FetchEvent where
  | ctxDone (e : GoError)
  | errDelivery (e : GoError)
  | result (b : blockWithQuerier)
deriving Repr, DecidableEq

/-- Observable resource actions of the orchestration loop, in order:
a callback invocation on the handle of a given block, and the close of
that handle. -/
inductive Action where
  | callbackRun (path : String)
  | close (path : String)
deriving Repr, DecidableEq

/-- Model of `runCallback`: run the callback on the block, then (by the
deferred close) close the handle unconditionally; a callback error is
wrapped with the block path context. Returns the error outcome together
with the emitted action trace. -/
def runCallback (callback : blockWithQuerier → Option GoError)
    (block : blockWithQuerier) : Option GoError × List Action :=
  match callback block with
  | some e =>
    (some (GoError.wrapped ("error running callback function for block "
        ++ block.blockPath ++ " err") e),
     [Action.callbackRun block.blockPath, Action.close block.blockPath])
  | none =>
    (none, [Action.callbackRun block.blockPath, Action.close block.blockPath])

/-- Terminal outcome of the `Fetch` loop on a given event sequence:
returned `nil`, returned an error, or consumed every event without
returning (the Go loop would keep blocking in `select`). -/
inductive FetchOutcome where
  | ok
  | err (e : GoError)
  | blocked
deriving Repr, DecidableEq

/-- Model of the `for`/`select` loop of `Fetch`: `remaining` starts at
`len(blocks)`; cancellation and error deliveries return a wrapped error
at once; a result delivery runs `runCallback`, propagates its error, and
otherwise decrements `remaining`, returning `nil` when it reaches zero.
Also returns the concatenated action traces of the processed blocks. -/
def fetchLoop (callback : blockWithQuerier → Option GoError) :
    Int → List FetchEvent → FetchOutcome × List Action
  | _, [] => (FetchOutcome.blocked, [])
  | _, FetchEvent.ctxDone e :: _ =>
    (FetchOutcome.err (GoError.wrapped "failed to fetch blocks" e), [])
  | _, FetchEvent.errDelivery e :: _ =>
    (FetchOutcome.err (GoError.wrapped "failed to fetch blocks" e), [])
  | remaining, FetchEvent.result b :: rest =>
    match runCallback callback b with
    | (some e, acts) => (FetchOutcome.err e, acts)
    | (none, acts) =>
      if remaining - 1 = 0 then (FetchOutcome.ok, acts)
      else
        let next := fetchLoop callback (remaining - 1) rest
        (next.1, acts ++ next.2)

/-- Model of `Fetch`: the initial downloader `fetch` call may fail, in
which case its error is returned as-is and no callback runs; otherwise
the loop consumes the event sequence with `remaining = len(blocks)`. -/
def FetchModel (setup : Except GoError Unit)
    (callback : blockWithQuerier → Option GoError) (numBlocks : Nat)
    (events : List FetchEvent) : FetchOutcome × List Action :=
  match setup with
  | .error e => (FetchOutcome.err e, [])
  | .ok _ => fetchLoop callback (numBlocks : Int) events

/-- Number of callback invocations recorded in an action trace. -/
def countCallbacks (acts : List Action) : Nat :=
  (acts.filter (fun a => match a with
    | Action.callbackRun _ => true
    | Action.close _ => false)).length

/-- Whether a `Fetch` outcome corresponds to the call returning at all. -/
def terminated : FetchOutcome → Bool
  | FetchOutcome.blocked => false
  | _ => true

/-- An ascending, non-overlapping sequence of well-formed fingerprint
ranges: each range has `min ≤ max` and each range ends strictly below
the start of the next. -/
def ascRanges (l : List fpRange) : Prop :=
  (∀ r ∈ l, r.minFp ≤ r.maxFp) ∧ List.Chain' (fun a b => a.maxFp < b.minFp) l

theorem ascRanges_shards : ascRanges [⟨0, 10⟩, ⟨20, 30⟩] := by
  constructor
  · decide
  · simp [List.chain'_cons]

/-- Declarative reading of the exclusion condition, following the spec
wording: the time interval of the block misses the query window, or the
fingerprint interval of the block misses the overall bound of the range
sequence (below the min of the first range or above the max of the last
range), or the fingerprint interval is strictly contained in a gap
between two consecutive elements of the sequence, the previous cursor of
the gap walk starting at the zero range. -/
def outsideSpec (b : BlockRef) (from_ through : Int) (R : List fpRange)
    (hR : R ≠ []) : Prop :=
  (b.endTimestamp < from_ ∨ b.startTimestamp > through)
  ∨ (b.maxFingerprint < (R.head hR).minFp ∨ b.minFingerprint > (R.getLast hR).maxFp)
  ∨ (∃ p ∈ (fpRange.mk 0 0 :: R).zip R,
      p.1.maxFp < b.minFingerprint ∧ b.maxFingerprint < p.2.minFp)

theorem getFirstLast_of_ne_nil {T : Type} [Inhabited T] (l : List T) (h : l ≠ []) :
    getFirstLast l = (l.head h, l.getLast h) := by
  cases l with
  | nil => exact absurd rfl h
  | cons x xs => rfl

theorem getFirstLast_nil_fp : getFirstLast ([] : List fpRange) = (⟨0, 0⟩, ⟨0, 0⟩) := rfl

theorem gapScan_iff (b : BlockRef) (l : List fpRange) (prev : fpRange) :
    gapScan b prev l = true ↔
      ∃ p ∈ (prev :: l).zip l,
        p.1.maxFp < b.minFingerprint ∧ b.maxFingerprint < p.2.minFp := by
  induction l generalizing prev with
  | nil => simp [gapScan]
  | cons x rest ih =>
    rw [gapScan, List.zip_cons_cons, List.exists_mem_cons_iff]
    by_cases h : b.minFingerprint > prev.maxFp ∧ b.maxFingerprint < x.minFp
    · simp only [if_pos h]
      constructor
      · intro _
        exact Or.inl ⟨h.1, h.2⟩
      · intro _
        trivial
    · rw [if_neg h, ih x]
      constructor
      · exact Or.inr
      · rintro (hc | hrest)
        · exact absurd ⟨hc.1, hc.2⟩ h
        · exact hrest

/-- C1: for every block, query window and ascending non-overlapping
range sequence, `isOutsideRange` returns true exactly when the block is
time-disjoint from the window, fingerprint-disjoint from the overall
bound of the sequence, or strictly contained in a gap between two
consecutive ranges (previous cursor starting at the zero range); in
particular, for shard ranges `[[0,10],[20,30]]` a block with
fingerprints `[11,19]` is excluded and a block with `[5,25]` is not. -/
theorem isOutsideRange_characterization :
    (∀ (b : BlockRef) (from_ through : Int) (R : List fpRange) (hR : R ≠ []),
      ascRanges R →
      (isOutsideRange b from_ through R = true ↔ outsideSpec b from_ through R hR))
    ∧ isOutsideRange ⟨"inGap", 11, 19, 0, 10⟩ 0 10 [⟨0, 10⟩, ⟨20, 30⟩] = true
    ∧ isOutsideRange ⟨"straddle", 5, 25, 0, 10⟩ 0 10 [⟨0, 10⟩, ⟨20, 30⟩] = false := by
  refine ⟨?_, by decide, by decide⟩
  intro b from_ through R hR _
  unfold outsideSpec
  by_cases ht : b.endTimestamp < from_ ∨ b.startTimestamp > through
  · simp [isOutsideRange, ht]
  · by_cases hf : b.maxFingerprint < (R.head hR).minFp ∨ b.minFingerprint > (R.getLast hR).maxFp
    · simp [isOutsideRange, ht, getFirstLast_of_ne_nil R hR, hf]
    · simp [isOutsideRange, ht, getFirstLast_of_ne_nil R hR, hf, gapScan_iff]

/-- Witness for C1 at the gap scenario of the spec. -/
theorem isOutsideRange_characterization_witness :
    ([⟨0, 10⟩, ⟨20, 30⟩] : List fpRange) ≠ []
    ∧ ascRanges [⟨0, 10⟩, ⟨20, 30⟩]
    ∧ (isOutsideRange ⟨"inGap", 11, 19, 0, 10⟩ 0 10 [⟨0, 10⟩, ⟨20, 30⟩] = true ↔
        outsideSpec ⟨"inGap", 11, 19, 0, 10⟩ 0 10 [⟨0, 10⟩, ⟨20, 30⟩] (by decide)) :=
  ⟨by decide, ascRanges_shards,
    isOutsideRange_characterization.1 ⟨"inGap", 11, 19, 0, 10⟩ 0 10
      [⟨0, 10⟩, ⟨20, 30⟩] (by decide) ascRanges_shards⟩

/-- C9: with an empty fingerprint-range list, `getFirstLast` yields the
zero range as both bounds, so every block with positive `MinFingerprint`
is excluded regardless of its time interval, and a block with
`MinFingerprint = 0` survives the fingerprint checks, being excluded
exactly when its time interval misses the window. -/
theorem isOutsideRange_empty_ranges :
    getFirstLast ([] : List fpRange) = (⟨0, 0⟩, ⟨0, 0⟩)
    ∧ (∀ (b : BlockRef) (s e : Int), 0 < b.minFingerprint →
        isOutsideRange b s e [] = true)
    ∧ (∀ (b : BlockRef) (s e : Int), b.minFingerprint = 0 →
        (isOutsideRange b s e [] = true ↔
          (b.endTimestamp < s ∨ b.startTimestamp > e))) := by
  refine ⟨rfl, ?_, ?_⟩
  · intro b s e h
    by_cases ht : b.endTimestamp < s ∨ b.startTimestamp > e
    · simp [isOutsideRange, ht]
    · simp [isOutsideRange, ht, getFirstLast_nil_fp]
      omega
  · intro b s e h
    by_cases ht : b.endTimestamp < s ∨ b.startTimestamp > e
    · simp [isOutsideRange, ht]
    · simp [isOutsideRange, ht, getFirstLast_nil_fp, gapScan]
      omega

/-- Witness for C9: a block with `MinFingerprint = 1 > 0` is excluded
under the empty range list. -/
theorem isOutsideRange_empty_ranges_witness :
    0 < (1 : Nat) ∧ isOutsideRange ⟨"w", 1, 2, 0, 10⟩ 0 10 [] = true :=
  ⟨by decide, isOutsideRange_empty_ranges.2.1 ⟨"w", 1, 2, 0, 10⟩ 0 10 (by decide)⟩

theorem mem_insertBlock {acc : List BlockRef} {b r : BlockRef}
    (h : r ∈ insertBlock acc b) :
    r = b ∨ (r ∈ acc ∧ r.blockPath ≠ b.blockPath) := by
  unfold insertBlock at h
  by_cases hp : acc.any (fun x => x.blockPath == b.blockPath)
  · rw [if_pos hp] at h
    rcases List.mem_map.mp h with ⟨x, hx, hfx⟩
    by_cases hxb : x.blockPath == b.blockPath
    · rw [if_pos hxb] at hfx
      exact Or.inl hfx.symm
    · rw [if_neg hxb] at hfx
      subst hfx
      exact Or.inr ⟨hx, by simpa using hxb⟩
  · rw [if_neg hp] at h
    rcases List.mem_append.mp h with hx | hx
    · refine Or.inr ⟨hx, ?_⟩
      intro hpath
      exact hp (List.any_eq_true.mpr ⟨r, hx, by simp [hpath]⟩)
    · exact Or.inl (by simpa using hx)

theorem pairwise_insertBlock {acc : List BlockRef} {b : BlockRef}
    (h : acc.Pairwise (fun x y => x.blockPath ≠ y.blockPath)) :
    (insertBlock acc b).Pairwise (fun x y => x.blockPath ≠ y.blockPath) := by
  unfold insertBlock
  by_cases hp : acc.any (fun x => x.blockPath == b.blockPath)
  · rw [if_pos hp]
    refine List.Pairwise.map _ ?_ h
    intro x y hxy
    by_cases hxb : x.blockPath == b.blockPath
    · have hyb : ¬(y.blockPath == b.blockPath) := by
        intro hyb
        exact hxy (by rw [eq_of_beq hxb, eq_of_beq hyb])
      rw [if_pos hxb, if_neg hyb]
      exact fun hc => hyb (beq_iff_eq.mpr hc.symm)
    · by_cases hyb : y.blockPath == b.blockPath
      · rw [if_neg hxb, if_pos hyb]
        exact fun hc => hxb (beq_iff_eq.mpr hc)
      · rw [if_neg hxb, if_neg hyb]
        exact hxy
  · rw [if_neg hp]
    rw [List.pairwise_append]
    refine ⟨h, List.pairwise_singleton _ _, ?_⟩
    intro x hx y hy
    rw [List.mem_singleton] at hy
    subst hy
    intro hc
    exact hp (List.any_eq_true.mpr ⟨x, hx, by simp [hc]⟩)

theorem foldl_insertBlock_mem {l : List BlockRef} {r : BlockRef}
    (h : r ∈ l.foldl insertBlock []) : r ∈ l := by
  induction l using List.reverseRecOn with
  | nil => simp at h
  | append_singleton xs b ih =>
    rw [List.foldl_append, List.foldl_cons, List.foldl_nil] at h
    rcases mem_insertBlock h with hb | ⟨hx, _⟩
    · simp [hb]
    · exact List.mem_append.mpr (Or.inl (ih hx))

theorem foldl_insertBlock_pairwise (l : List BlockRef) :
    (l.foldl insertBlock []).Pairwise (fun x y => x.blockPath ≠ y.blockPath) := by
  induction l using List.reverseRecOn with
  | nil => simp
  | append_singleton xs b ih =>
    rw [List.foldl_append, List.foldl_cons, List.foldl_nil]
    exact pairwise_insertBlock ih

theorem foldl_insertBlock_last {l : List BlockRef} {r : BlockRef}
    (h : r ∈ l.foldl insertBlock []) :
    (l.filter (fun x => x.blockPath == r.blockPath)).getLast? = some r := by
  induction l using List.reverseRecOn with
  | nil => simp at h
  | append_singleton xs b ih =>
    rw [List.foldl_append, List.foldl_cons, List.foldl_nil] at h
    rcases mem_insertBlock h with hb | ⟨hx, hne⟩
    · subst hb
      rw [List.filter_append]
      simp
    · rw [List.filter_append]
      have hb : (b.blockPath == r.blockPath) = false := by
        simp only [beq_eq_false_iff_ne, ne_eq]
        intro hc
        exact hne hc.symm
      simp only [List.filter_cons, hb, Bool.false_eq_true, if_false,
        List.filter_nil, List.append_nil]
      exact ih hx

theorem findBlocksStep_eq (outdated : List String) (s e : Int)
    (fps : List fpRange) (acc : List BlockRef) (b : BlockRef) :
    findBlocksStep outdated s e fps acc b =
      if !(outdated.contains b.blockPath) && !(isOutsideRange b s e fps)
      then insertBlock acc b else acc := by
  unfold findBlocksStep
  cases h1 : outdated.contains b.blockPath <;>
    cases h2 : isOutsideRange b s e fps <;> simp

theorem foldl_guarded_insert (keep : BlockRef → Bool) :
    ∀ (bs acc : List BlockRef),
      bs.foldl (fun acc b => if keep b then insertBlock acc b else acc) acc
        = (bs.filter keep).foldl insertBlock acc := by
  intro bs
  induction bs with
  | nil => intro acc; rfl
  | cons b bs ih =>
    intro acc
    rw [List.foldl_cons, List.filter_cons]
    cases h : keep b <;> simp [ih]

theorem findBlocksCore_eq_foldl (metas : List Meta) (s e : Int)
    (fps : List fpRange) :
    findBlocksCore metas s e fps = (keptBlocks metas s e fps).foldl insertBlock [] := by
  unfold findBlocksCore keptBlocks
  have hf : findBlocksStep (tombstonedPaths metas) s e fps
      = fun acc b => if !((tombstonedPaths metas).contains b.blockPath)
          && !(isOutsideRange b s e fps) then insertBlock acc b else acc :=
    funext fun acc => funext fun b => findBlocksStep_eq _ s e fps acc b
  rw [hf]
  exact foldl_guarded_insert _ _ []

theorem mem_keptBlocks {metas : List Meta} {s e : Int} {fps : List fpRange}
    {r : BlockRef} (h : r ∈ keptBlocks metas s e fps) :
    (∃ m ∈ metas, r ∈ m.blocks)
    ∧ (∀ m ∈ metas, ∀ t ∈ m.tombstones, t.blockPath ≠ r.blockPath)
    ∧ isOutsideRange r s e fps = false := by
  unfold keptBlocks at h
  rcases List.mem_filter.mp h with ⟨hmem, hkeep⟩
  simp only [Bool.and_eq_true, Bool.not_eq_true'] at hkeep
  refine ⟨?_, ?_, hkeep.2⟩
  · rcases List.mem_flatten.mp hmem with ⟨blocks, hbl, hrbl⟩
    rcases List.mem_map.mp hbl with ⟨m, hm, hmb⟩
    exact ⟨m, hm, hmb ▸ hrbl⟩
  · intro m hm t ht hc
    have : r.blockPath ∈ tombstonedPaths metas := by
      unfold tombstonedPaths
      refine List.mem_flatten.mpr ⟨m.tombstones.map (fun t => t.blockPath), ?_, ?_⟩
      · exact List.mem_map.mpr ⟨m, hm, rfl⟩
      · exact List.mem_map.mpr ⟨t, ht, hc⟩
    have hc2 : (tombstonedPaths metas).contains r.blockPath = true :=
      List.elem_iff.mpr this
    rw [hkeep.1] at hc2
    exact Bool.false_ne_true hc2

theorem mem_findBlocksCore {metas : List Meta} {s e : Int} {fps : List fpRange}
    {r : BlockRef} (h : r ∈ findBlocksCore metas s e fps) :
    (∃ m ∈ metas, r ∈ m.blocks)
    ∧ (∀ m ∈ metas, ∀ t ∈ m.tombstones, t.blockPath ≠ r.blockPath)
    ∧ isOutsideRange r s e fps = false := by
  rw [findBlocksCore_eq_foldl] at h
  exact mem_keptBlocks (foldl_insertBlock_mem h)

/-- C2: a block path listed in any tombstone sequence never appears in
the result of `findBlocks`, whatever order the result map is iterated
in; in particular, with one meta listing `pathX` as active and another
tombstoning it, `findBlocks` returns the empty set. -/
theorem findBlocks_tombstone_excluded :
    (∀ (metas : List Meta) (s e : Int) (fps : List fpRange) (l : List BlockRef),
      FindBlocksResult metas s e fps l →
      ∀ p : String, (∃ m ∈ metas, ∃ t ∈ m.tombstones, t.blockPath = p) →
      ∀ r ∈ l, r.blockPath ≠ p)
    ∧ (∀ l : List BlockRef,
        FindBlocksResult
          [⟨[⟨"pathX", 1, 2, 0, 10⟩], []⟩, ⟨[], [⟨"pathX", 1, 2, 0, 10⟩]⟩]
          0 10 [⟨0, MaxUint64⟩] l →
        l = []) := by
  constructor
  · intro metas s e fps l hperm p hp r hr hc
    have hrc : r ∈ findBlocksCore metas s e fps := hperm.mem_iff.mp hr
    rcases hp with ⟨m, hm, t, ht, htp⟩
    exact (mem_findBlocksCore hrc).2.1 m hm t ht (htp.trans hc.symm)
  · intro l hperm
    have hcore : findBlocksCore
        [⟨[⟨"pathX", 1, 2, 0, 10⟩], []⟩, ⟨[], [⟨"pathX", 1, 2, 0, 10⟩]⟩]
        0 10 [⟨0, MaxUint64⟩] = [] := by decide
    have hp2 : l.Perm ([] : List BlockRef) := hcore ▸ hperm
    exact hp2.eq_nil

/-- Witness for C2 at the tombstone scenario of the spec. -/
theorem findBlocks_tombstone_excluded_witness :
    FindBlocksResult [⟨[⟨"pathX", 1, 2, 0, 10⟩], []⟩, ⟨[], [⟨"pathX", 1, 2, 0, 10⟩]⟩]
        0 10 [⟨0, MaxUint64⟩]
        (findBlocksCore [⟨[⟨"pathX", 1, 2, 0, 10⟩], []⟩, ⟨[], [⟨"pathX", 1, 2, 0, 10⟩]⟩]
          0 10 [⟨0, MaxUint64⟩])
    ∧ findBlocksCore [⟨[⟨"pathX", 1, 2, 0, 10⟩], []⟩, ⟨[], [⟨"pathX", 1, 2, 0, 10⟩]⟩]
        0 10 [⟨0, MaxUint64⟩] = [] :=
  ⟨List.Perm.refl _, findBlocks_tombstone_excluded.2 _ (List.Perm.refl _)⟩

/-- C10: every block in a `findBlocks` result is, field for field, an
element of the `Blocks` sequence of some input meta, its path is
tombstoned by no meta, and it is not outside the query range. -/
theorem findBlocks_sound :
    ∀ (metas : List Meta) (s e : Int) (fps : List fpRange) (l : List BlockRef),
      FindBlocksResult metas s e fps l →
      ∀ r ∈ l,
        (∃ m ∈ metas, r ∈ m.blocks)
        ∧ (∀ m ∈ metas, ∀ t ∈ m.tombstones, t.blockPath ≠ r.blockPath)
        ∧ isOutsideRange r s e fps = false := by
  intro metas s e fps l hperm r hr
  exact mem_findBlocksCore (hperm.mem_iff.mp hr)

/-- Witness for C10: one in-range block survives and satisfies the
range check. -/
theorem findBlocks_sound_witness :
    FindBlocksResult [⟨[⟨"b", 1, 2, 0, 10⟩], []⟩] 0 10 [⟨0, MaxUint64⟩]
        (findBlocksCore [⟨[⟨"b", 1, 2, 0, 10⟩], []⟩] 0 10 [⟨0, MaxUint64⟩])
    ∧ (⟨"b", 1, 2, 0, 10⟩ : BlockRef)
        ∈ findBlocksCore [⟨[⟨"b", 1, 2, 0, 10⟩], []⟩] 0 10 [⟨0, MaxUint64⟩]
    ∧ isOutsideRange ⟨"b", 1, 2, 0, 10⟩ 0 10 [⟨0, MaxUint64⟩] = false :=
  ⟨List.Perm.refl _, by decide,
    (findBlocks_sound [⟨[⟨"b", 1, 2, 0, 10⟩], []⟩] 0 10 [⟨0, MaxUint64⟩] _
      (List.Perm.refl _) ⟨"b", 1, 2, 0, 10⟩ (by decide)).2.2⟩

/-- C6 (amended): `findBlocks` keeps at most one entry per block path;
since Go map assignment overwrites, the entry retained for a path is the
last one discovered among the kept blocks, not the first. -/
theorem findBlocks_dedup_overwrite :
    ∀ (metas : List Meta) (s e : Int) (fps : List fpRange) (l : List BlockRef),
      FindBlocksResult metas s e fps l →
      l.Pairwise (fun x y => x.blockPath ≠ y.blockPath)
      ∧ ∀ r ∈ l,
          ((keptBlocks metas s e fps).filter
            (fun x => x.blockPath == r.blockPath)).getLast? = some r := by
  intro metas s e fps l hperm
  constructor
  · refine (hperm.pairwise_iff (fun h => fun hc => h hc.symm)).mpr ?_
    rw [findBlocksCore_eq_foldl]
    exact foldl_insertBlock_pairwise _
  · intro r hr
    have hrc := hperm.mem_iff.mp hr
    rw [findBlocksCore_eq_foldl] at hrc
    exact foldl_insertBlock_last hrc

/-- Witness for C6: with two same-path blocks the retained set has one
entry per path. -/
theorem findBlocks_dedup_overwrite_witness :
    FindBlocksResult [⟨[⟨"p", 1, 2, 0, 10⟩], []⟩, ⟨[⟨"p", 3, 4, 0, 10⟩], []⟩]
        0 10 [⟨0, MaxUint64⟩]
        (findBlocksCore [⟨[⟨"p", 1, 2, 0, 10⟩], []⟩, ⟨[⟨"p", 3, 4, 0, 10⟩], []⟩]
          0 10 [⟨0, MaxUint64⟩])
    ∧ (findBlocksCore [⟨[⟨"p", 1, 2, 0, 10⟩], []⟩, ⟨[⟨"p", 3, 4, 0, 10⟩], []⟩]
        0 10 [⟨0, MaxUint64⟩]).Pairwise (fun x y => x.blockPath ≠ y.blockPath) :=
  ⟨List.Perm.refl _, (findBlocks_dedup_overwrite _ 0 10 _ _ (List.Perm.refl _)).1⟩

/-- Counterexample for C6 as stated: two metas list different blocks
under the identical path; the retained entry is the one discovered
last, not first (Go map assignment overwrites). -/
theorem findBlocks_first_discovered_counterexample :
    findBlocksCore [⟨[⟨"p", 1, 2, 0, 10⟩], []⟩, ⟨[⟨"p", 3, 4, 0, 10⟩], []⟩]
        0 10 [⟨0, MaxUint64⟩] = [⟨"p", 3, 4, 0, 10⟩]
    ∧ (⟨"p", 3, 4, 0, 10⟩ : BlockRef) ≠ ⟨"p", 1, 2, 0, 10⟩ :=
  ⟨by decide, by decide⟩

theorem perm_insertByMinFp (b : BlockRef) (l : List BlockRef) :
    (insertByMinFp b l).Perm (b :: l) := by
  induction l with
  | nil => exact List.Perm.refl _
  | cons x xs ih =>
    unfold insertByMinFp
    by_cases h : b.minFingerprint ≤ x.minFingerprint
    · rw [if_pos h]
    · rw [if_neg h]
      exact (ih.cons x).trans (List.Perm.swap b x xs)

theorem perm_sortStableByMinFp (l : List BlockRef) :
    (sortStableByMinFp l).Perm l := by
  induction l with
  | nil => exact List.Perm.refl _
  | cons x xs ih =>
    exact (perm_insertByMinFp x (sortStableByMinFp xs)).trans (ih.cons x)

theorem pairwise_insertByMinFp {b : BlockRef} {l : List BlockRef}
    (h : l.Pairwise (fun x y => x.minFingerprint ≤ y.minFingerprint)) :
    (insertByMinFp b l).Pairwise (fun x y => x.minFingerprint ≤ y.minFingerprint) := by
  induction l with
  | nil => simp [insertByMinFp]
  | cons x xs ih =>
    unfold insertByMinFp
    rcases List.pairwise_cons.mp h with ⟨hx, hxs⟩
    by_cases hle : b.minFingerprint ≤ x.minFingerprint
    · rw [if_pos hle]
      refine List.pairwise_cons.mpr ⟨?_, h⟩
      intro y hy
      rcases List.mem_cons.mp hy with hy | hy
      · exact hy ▸ hle
      · exact le_trans hle (hx y hy)
    · rw [if_neg hle]
      refine List.pairwise_cons.mpr ⟨?_, ih hxs⟩
      intro y hy
      rcases List.mem_cons.mp ((perm_insertByMinFp b xs).mem_iff.mp hy) with hy | hy
      · exact hy ▸ Nat.le_of_not_le hle
      · exact hx y hy

theorem sorted_sortStableByMinFp (l : List BlockRef) :
    (sortStableByMinFp l).Pairwise (fun x y => x.minFingerprint ≤ y.minFingerprint) := by
  induction l with
  | nil => simp [sortStableByMinFp]
  | cons x xs ih => exact pairwise_insertByMinFp ih

theorem filter_insertByMinFp (b : BlockRef) (l : List BlockRef) (k : Nat) :
    (insertByMinFp b l).filter (fun r => r.minFingerprint == k)
      = if b.minFingerprint == k
        then b :: l.filter (fun r => r.minFingerprint == k)
        else l.filter (fun r => r.minFingerprint == k) := by
  induction l with
  | nil =>
    cases h : (b.minFingerprint == k) <;> simp [insertByMinFp, h]
  | cons x xs ih =>
    unfold insertByMinFp
    by_cases hle : b.minFingerprint ≤ x.minFingerprint
    · rw [if_pos hle]
      cases hb : (b.minFingerprint == k) <;> simp [List.filter_cons, hb]
    · rw [if_neg hle]
      cases hb : (b.minFingerprint == k)
      · simp [List.filter_cons, ih, hb]
      · have hx : (x.minFingerprint == k) = false := by
          refine beq_eq_false_iff_ne.mpr ?_
          intro hc
          exact hle (Nat.le_of_eq ((beq_iff_eq.mp hb).trans hc.symm))
        simp [List.filter_cons, ih, hb, hx]

theorem filter_sortStableByMinFp (l : List BlockRef) (k : Nat) :
    (sortStableByMinFp l).filter (fun r => r.minFingerprint == k)
      = l.filter (fun r => r.minFingerprint == k) := by
  induction l with
  | nil => rfl
  | cons x xs ih =>
    show (insertByMinFp x (sortStableByMinFp xs)).filter _ = _
    rw [filter_insertByMinFp, List.filter_cons]
    cases hb : (x.minFingerprint == k) <;> simp [hb, ih]

/-- C7 (amended): the list produced by `getActiveBlockRefs` is sorted
ascending by `MinFingerprint` and the sort is stable with respect to the
order in which the path-keyed map of `findBlocks` was iterated; since
that iteration order is unspecified in Go, entries with equal
`MinFingerprint` appear in an unspecified relative order, not
necessarily discovery order. -/
theorem getActiveBlockRefs_sorted_stable :
    ∀ (metas : List Meta) (s e : Int) (fps : List fpRange)
      (iter : List BlockRef → List BlockRef) (refs : List BlockRef),
      getActiveBlockRefsModel (.ok metas) s e fps iter = .ok refs →
      refs.Pairwise (fun x y => x.minFingerprint ≤ y.minFingerprint)
      ∧ refs.Perm (iter (findBlocksCore metas s e fps))
      ∧ (∀ k : Nat, refs.filter (fun r => r.minFingerprint == k)
          = (iter (findBlocksCore metas s e fps)).filter
              (fun r => r.minFingerprint == k)) := by
  intro metas s e fps iter refs heq
  have h2 : (Except.ok (sortStableByMinFp (iter (findBlocksCore metas s e fps)))
      : Except GoError (List BlockRef)) = .ok refs := heq
  have h3 : refs = sortStableByMinFp (iter (findBlocksCore metas s e fps)) :=
    (Except.ok.inj h2).symm
  subst h3
  exact ⟨sorted_sortStableByMinFp _, perm_sortStableByMinFp _,
    fun k => filter_sortStableByMinFp _ k⟩

/-- Witness for C7 on a one-block input with the identity iteration
order. -/
theorem getActiveBlockRefs_sorted_stable_witness :
    getActiveBlockRefsModel (.ok [⟨[⟨"b", 1, 2, 0, 10⟩], []⟩]) 0 10
        [⟨0, MaxUint64⟩] id = .ok [⟨"b", 1, 2, 0, 10⟩]
    ∧ ([⟨"b", 1, 2, 0, 10⟩] : List BlockRef).Pairwise
        (fun x y => x.minFingerprint ≤ y.minFingerprint) :=
  ⟨rfl, (getActiveBlockRefs_sorted_stable [⟨[⟨"b", 1, 2, 0, 10⟩], []⟩] 0 10
      [⟨0, MaxUint64⟩] id [⟨"b", 1, 2, 0, 10⟩] rfl).1⟩

/-- Counterexample for C7 as stated: two same-`MinFingerprint` blocks
are discovered in the order x then y, but the map iteration (legal,
being a permutation of the set) emits them reversed; the stable sort
then outputs y before x, so equal-key entries do not retain discovery
order. -/
theorem getActiveBlockRefs_discovery_order_counterexample :
    findBlocksCore [⟨[⟨"x", 5, 6, 0, 10⟩], []⟩, ⟨[⟨"y", 5, 7, 0, 10⟩], []⟩]
        0 10 [⟨0, MaxUint64⟩] = [⟨"x", 5, 6, 0, 10⟩, ⟨"y", 5, 7, 0, 10⟩]
    ∧ ([⟨"y", 5, 7, 0, 10⟩, ⟨"x", 5, 6, 0, 10⟩] : List BlockRef).Perm
        [⟨"x", 5, 6, 0, 10⟩, ⟨"y", 5, 7, 0, 10⟩]
    ∧ getActiveBlockRefsModel
        (.ok [⟨[⟨"x", 5, 6, 0, 10⟩], []⟩, ⟨[⟨"y", 5, 7, 0, 10⟩], []⟩])
        0 10 [⟨0, MaxUint64⟩] List.reverse
        = .ok [⟨"y", 5, 7, 0, 10⟩, ⟨"x", 5, 6, 0, 10⟩]
    ∧ (⟨"x", 5, 6, 0, 10⟩ : BlockRef).minFingerprint
        = (⟨"y", 5, 7, 0, 10⟩ : BlockRef).minFingerprint
    ∧ (⟨"x", 5, 6, 0, 10⟩ : BlockRef) ≠ ⟨"y", 5, 7, 0, 10⟩ :=
  ⟨by decide, List.Perm.swap _ _ _, by rfl, rfl, by decide⟩

theorem countCallbacks_append (a b : List Action) :
    countCallbacks (a ++ b) = countCallbacks a + countCallbacks b := by
  unfold countCallbacks
  rw [List.filter_append, List.length_append]

theorem fetchLoop_result_success (cb : blockWithQuerier → Option GoError)
    (r : Int) (b : blockWithQuerier) (rest : List FetchEvent)
    (h : cb b = none) (hr : ¬(r - 1 = 0)) :
    fetchLoop cb r (FetchEvent.result b :: rest)
      = ((fetchLoop cb (r - 1) rest).1,
         [Action.callbackRun b.blockPath, Action.close b.blockPath]
           ++ (fetchLoop cb (r - 1) rest).2) := by
  simp [fetchLoop, runCallback, h, hr]

theorem fetchLoop_result_last (cb : blockWithQuerier → Option GoError)
    (r : Int) (b : blockWithQuerier) (rest : List FetchEvent)
    (h : cb b = none) (hr : r - 1 = 0) :
    fetchLoop cb r (FetchEvent.result b :: rest)
      = (FetchOutcome.ok,
         [Action.callbackRun b.blockPath, Action.close b.blockPath]) := by
  simp [fetchLoop, runCallback, h, hr]

theorem fetchLoop_result_error (cb : blockWithQuerier → Option GoError)
    (r : Int) (b : blockWithQuerier) (rest : List FetchEvent) (e : GoError)
    (h : cb b = some e) :
    fetchLoop cb r (FetchEvent.result b :: rest)
      = (FetchOutcome.err (GoError.wrapped
            ("error running callback function for block " ++ b.blockPath ++ " err") e),
         [Action.callbackRun b.blockPath, Action.close b.blockPath]) := by
  simp [fetchLoop, runCallback, h]

theorem fetchLoop_all_success (cb : blockWithQuerier → Option GoError) :
    ∀ (bs : List blockWithQuerier), bs ≠ [] → (∀ b ∈ bs, cb b = none) →
      fetchLoop cb (bs.length : Int) (bs.map FetchEvent.result)
        = (FetchOutcome.ok,
           (bs.map (fun b =>
             [Action.callbackRun b.blockPath, Action.close b.blockPath])).flatten)
  | [], h, _ => absurd rfl h
  | [x], _, hcb => by
    simp [fetchLoop, runCallback, hcb x (List.mem_singleton.mpr rfl)]
  | x :: y :: rest, _, hcb => by
    have hx : cb x = none := hcb x (List.mem_cons.mpr (Or.inl rfl))
    have ih := fetchLoop_all_success cb (y :: rest) (by simp)
      (fun b hb => hcb b (List.mem_cons.mpr (Or.inr hb)))
    have hr : ¬(((x :: y :: rest).length : Int) - 1 = 0) := by
      simp only [List.length_cons]
      omega
    rw [List.map_cons, fetchLoop_result_success cb _ x _ hx hr]
    have hlen : (((x :: y :: rest).length : Int)) - 1 = ((y :: rest).length : Int) := by
      simp only [List.length_cons]
      omega
    rw [hlen, ih]
    simp

theorem countCallbacks_pairs (bs : List blockWithQuerier) :
    countCallbacks ((bs.map (fun b =>
        [Action.callbackRun b.blockPath, Action.close b.blockPath])).flatten)
      = bs.length := by
  induction bs with
  | nil => rfl
  | cons b bs ih =>
    rw [List.map_cons, List.flatten_cons, countCallbacks_append, ih]
    have h1 : countCallbacks
        [Action.callbackRun b.blockPath, Action.close b.blockPath] = 1 := rfl
    rw [h1, List.length_cons]
    omega

theorem fetchLoop_ok_count (cb : blockWithQuerier → Option GoError) :
    ∀ (events : List FetchEvent) (r : Int),
      (fetchLoop cb r events).1 = FetchOutcome.ok →
      (countCallbacks (fetchLoop cb r events).2 : Int) = r := by
  intro events
  induction events with
  | nil =>
    intro r h
    simp [fetchLoop] at h
  | cons ev rest ih =>
    intro r h
    cases ev with
    | ctxDone e => simp [fetchLoop] at h
    | errDelivery e => simp [fetchLoop] at h
    | result b =>
      cases hcb : cb b with
      | some e =>
        rw [fetchLoop_result_error cb r b rest e hcb] at h
        simp at h
      | none =>
        by_cases hr : r - 1 = 0
        · rw [fetchLoop_result_last cb r b rest hcb hr]
          have h1 : countCallbacks
              [Action.callbackRun b.blockPath, Action.close b.blockPath] = 1 := rfl
          rw [h1]
          omega
        · rw [fetchLoop_result_success cb r b rest hcb hr] at h ⊢
          have hnext := ih (r - 1) h
          rw [countCallbacks_append]
          have h1 : countCallbacks
              [Action.callbackRun b.blockPath, Action.close b.blockPath] = 1 := rfl
          rw [h1]
          omega

/-- C3 (amended): if the downloader setup succeeds and its channels
deliver exactly N successfully opened blocks for N requested blocks,
with `N ≥ 1`, no error delivery, no cancellation, and every callback
invocation returning nil, then `Fetch` runs the callback exactly N
times, once per delivered block, and returns nil. -/
theorem fetch_all_success :
    ∀ (cb : blockWithQuerier → Option GoError) (bs : List blockWithQuerier),
      1 ≤ bs.length → (∀ b ∈ bs, cb b = none) →
      FetchModel (.ok ()) cb bs.length (bs.map FetchEvent.result)
        = (FetchOutcome.ok,
           (bs.map (fun b =>
             [Action.callbackRun b.blockPath, Action.close b.blockPath])).flatten)
      ∧ countCallbacks
          (FetchModel (.ok ()) cb bs.length (bs.map FetchEvent.result)).2
        = bs.length := by
  intro cb bs h1 hcb
  have hne : bs ≠ [] := by
    intro h
    subst h
    simp at h1
  have heq := fetchLoop_all_success cb bs hne hcb
  have hm : FetchModel (.ok ()) cb bs.length (bs.map FetchEvent.result)
      = fetchLoop cb (bs.length : Int) (bs.map FetchEvent.result) := rfl
  refine ⟨hm.trans heq, ?_⟩
  rw [hm, heq]
  exact countCallbacks_pairs bs

/-- Witness for C3 with one delivered block. -/
theorem fetch_all_success_witness :
    1 ≤ ([⟨"b1", 1, 2⟩] : List blockWithQuerier).length
    ∧ FetchModel (.ok ()) (fun _ => none) 1 [FetchEvent.result ⟨"b1", 1, 2⟩]
        = (FetchOutcome.ok, [Action.callbackRun "b1", Action.close "b1"]) :=
  ⟨by decide,
    (fetch_all_success (fun _ => none) [⟨"b1", 1, 2⟩] (by decide)
      (fun _ _ => rfl)).1⟩

/-- Counterexample for C3 as stated: with N = 0 requested blocks and no
deliveries the loop never returns (the remaining count is only examined
after a delivery), so `Fetch` does not return nil; and a delivered block
whose callback fails also prevents the nil return even though no error
channel delivery or cancellation occurred. -/
theorem fetch_all_success_counterexample :
    FetchModel (.ok ()) (fun _ => none) 0 [] = (FetchOutcome.blocked, [])
    ∧ FetchOutcome.blocked ≠ FetchOutcome.ok
    ∧ (FetchModel (.ok ()) (fun _ => some (GoError.base "cb"))
        1 [FetchEvent.result ⟨"b1", 1, 2⟩]).1
      = FetchOutcome.err (GoError.wrapped
          "error running callback function for block b1 err" (GoError.base "cb"))
    ∧ FetchOutcome.err (GoError.wrapped
          "error running callback function for block b1 err" (GoError.base "cb"))
      ≠ FetchOutcome.ok :=
  ⟨rfl, by decide, by rfl, by decide⟩

/-- C4 (amended): `Fetch` returns a wrapped non-nil error and performs
no further callbacks once it observes cancellation, an error-channel
delivery, or a failing callback; every `Fetch` call that returns does so
either with nil after exactly `len(blocks)` successful callbacks, or
with exactly one error after zero or more callbacks (a call with zero
requested blocks and no deliveries never returns). -/
theorem fetch_error_terminal :
    (∀ (cb : blockWithQuerier → Option GoError) (r : Int) (e : GoError)
        (rest : List FetchEvent),
      fetchLoop cb r (FetchEvent.ctxDone e :: rest)
        = (FetchOutcome.err (GoError.wrapped "failed to fetch blocks" e), []))
    ∧ (∀ (cb : blockWithQuerier → Option GoError) (r : Int) (e : GoError)
        (rest : List FetchEvent),
      fetchLoop cb r (FetchEvent.errDelivery e :: rest)
        = (FetchOutcome.err (GoError.wrapped "failed to fetch blocks" e), []))
    ∧ (∀ (cb : blockWithQuerier → Option GoError) (r : Int)
        (b : blockWithQuerier) (rest : List FetchEvent) (e : GoError),
      cb b = some e →
      fetchLoop cb r (FetchEvent.result b :: rest)
        = (FetchOutcome.err (GoError.wrapped
              ("error running callback function for block " ++ b.blockPath ++ " err") e),
           [Action.callbackRun b.blockPath, Action.close b.blockPath]))
    ∧ (∀ (cb : blockWithQuerier → Option GoError) (N : Nat)
        (events : List FetchEvent),
      (FetchModel (.ok ()) cb N events).1 = FetchOutcome.ok →
      countCallbacks (FetchModel (.ok ()) cb N events).2 = N)
    ∧ (∀ (cb : blockWithQuerier → Option GoError) (N : Nat)
        (events : List FetchEvent),
      terminated (FetchModel (.ok ()) cb N events).1 = true →
      (FetchModel (.ok ()) cb N events).1 = FetchOutcome.ok
        ∨ ∃ e, (FetchModel (.ok ()) cb N events).1 = FetchOutcome.err e) := by
  refine ⟨fun _ _ _ _ => rfl, fun _ _ _ _ => rfl,
    fun cb r b rest e h => fetchLoop_result_error cb r b rest e h, ?_, ?_⟩
  · intro cb N events h
    have hm : FetchModel (.ok ()) cb N events
        = fetchLoop cb (N : Int) events := rfl
    rw [hm] at h ⊢
    have := fetchLoop_ok_count cb events (N : Int) h
    omega
  · intro cb N events hterm
    cases hout : (FetchModel (.ok ()) cb N events).1 with
    | ok => exact Or.inl rfl
    | err e => exact Or.inr ⟨e, rfl⟩
    | blocked =>
      rw [hout] at hterm
      simp [terminated] at hterm

/-- Witness for C4 at a failing callback. -/
theorem fetch_error_terminal_witness :
    ((fun _ : blockWithQuerier => some (GoError.base "boom")) ⟨"b", 1, 2⟩
        = some (GoError.base "boom"))
    ∧ fetchLoop (fun _ => some (GoError.base "boom")) 2 [FetchEvent.result ⟨"b", 1, 2⟩]
        = (FetchOutcome.err (GoError.wrapped
              ("error running callback function for block " ++ "b" ++ " err")
              (GoError.base "boom")),
           [Action.callbackRun "b", Action.close "b"]) :=
  ⟨rfl, fetch_error_terminal.2.2.1 _ 2 ⟨"b", 1, 2⟩ [] _ rfl⟩

/-- Counterexample for C4 as stated: a `Fetch` call with zero requested
blocks and no deliveries consumes its whole event stream without
returning, so not every `Fetch` call terminates in one of the two
claimed outcomes. -/
theorem fetch_termination_counterexample :
    (FetchModel (.ok ()) (fun _ => some (GoError.base "unused")) 0 []).1
      = FetchOutcome.blocked
    ∧ terminated FetchOutcome.blocked = false :=
  ⟨rfl, rfl⟩

/-- C5: for every delivered block the loop runs the callback on that
block and closes its handle exactly once, strictly after the callback
returns, on the success path, the error path and the final-block path
alike; the close precedes both the processing of the next delivery and
the propagation of a callback error out of `Fetch`. -/
theorem runCallback_release_discipline :
    (∀ (cb : blockWithQuerier → Option GoError) (b : blockWithQuerier),
      (runCallback cb b).2
        = [Action.callbackRun b.blockPath, Action.close b.blockPath])
    ∧ (∀ (cb : blockWithQuerier → Option GoError) (r : Int)
        (b : blockWithQuerier) (rest : List FetchEvent),
      cb b = none → ¬(r - 1 = 0) →
      fetchLoop cb r (FetchEvent.result b :: rest)
        = ((fetchLoop cb (r - 1) rest).1,
           [Action.callbackRun b.blockPath, Action.close b.blockPath]
             ++ (fetchLoop cb (r - 1) rest).2))
    ∧ (∀ (cb : blockWithQuerier → Option GoError) (r : Int)
        (b : blockWithQuerier) (rest : List FetchEvent) (e : GoError),
      cb b = some e →
      fetchLoop cb r (FetchEvent.result b :: rest)
        = (FetchOutcome.err (GoError.wrapped
              ("error running callback function for block " ++ b.blockPath ++ " err") e),
           [Action.callbackRun b.blockPath, Action.close b.blockPath]))
    ∧ (∀ (cb : blockWithQuerier → Option GoError) (r : Int)
        (b : blockWithQuerier) (rest : List FetchEvent),
      cb b = none → r - 1 = 0 →
      fetchLoop cb r (FetchEvent.result b :: rest)
        = (FetchOutcome.ok,
           [Action.callbackRun b.blockPath, Action.close b.blockPath])) := by
  refine ⟨?_, fetchLoop_result_success, fetchLoop_result_error, fetchLoop_result_last⟩
  intro cb b
  cases h : cb b <;> simp [runCallback, h]

/-- Witness for C5 at the final successful block of a call. -/
theorem runCallback_release_discipline_witness :
    ((fun _ : blockWithQuerier => (none : Option GoError)) ⟨"b", 1, 2⟩ = none)
    ∧ ((1 : Int) - 1 = 0)
    ∧ fetchLoop (fun _ => none) 1 [FetchEvent.result ⟨"b", 1, 2⟩]
        = (FetchOutcome.ok, [Action.callbackRun "b", Action.close "b"]) :=
  ⟨rfl, rfl, runCallback_release_discipline.2.2.2 _ 1 ⟨"b", 1, 2⟩ [] rfl rfl⟩

/-- C8 (amended): the manifest fetch error, the cancellation error, the
error-channel error and the callback error are each wrapped with phase
context and their cause is preserved for inspection; the download setup
error, however, is returned by `Fetch` unmodified, with no wrapping and
with no callbacks invoked. -/
theorem fetch_error_wrapping :
    (∀ (e : GoError) (s t : Int) (iter : List BlockRef → List BlockRef),
      GetBlockRefsModel (.error e) s t iter
        = .error (GoError.wrapped "error fetching active block references "
            (GoError.wrapped "error fetching meta.json files" e))
      ∧ causeOf (GoError.wrapped "error fetching active block references "
            (GoError.wrapped "error fetching meta.json files" e))
          = some (GoError.wrapped "error fetching meta.json files" e)
      ∧ causeOf (GoError.wrapped "error fetching meta.json files" e) = some e)
    ∧ (∀ (e : GoError) (cb : blockWithQuerier → Option GoError) (N : Nat)
        (events : List FetchEvent),
      FetchModel (.error e) cb N events = (FetchOutcome.err e, []))
    ∧ (∀ (cb : blockWithQuerier → Option GoError) (r : Int) (e : GoError)
        (rest : List FetchEvent),
      fetchLoop cb r (FetchEvent.ctxDone e :: rest)
        = (FetchOutcome.err (GoError.wrapped "failed to fetch blocks" e), [])
      ∧ causeOf (GoError.wrapped "failed to fetch blocks" e) = some e)
    ∧ (∀ (cb : blockWithQuerier → Option GoError) (r : Int) (e : GoError)
        (rest : List FetchEvent),
      fetchLoop cb r (FetchEvent.errDelivery e :: rest)
        = (FetchOutcome.err (GoError.wrapped "failed to fetch blocks" e), []))
    ∧ (∀ (cb : blockWithQuerier → Option GoError) (b : blockWithQuerier)
        (e : GoError),
      cb b = some e →
      (runCallback cb b).1
        = some (GoError.wrapped ("error running callback function for block "
            ++ b.blockPath ++ " err") e)
      ∧ causeOf (GoError.wrapped ("error running callback function for block "
            ++ b.blockPath ++ " err") e) = some e) := by
  refine ⟨fun _ _ _ _ => ⟨rfl, rfl, rfl⟩, fun _ _ _ _ => rfl,
    fun _ _ _ _ => ⟨rfl, rfl⟩, fun _ _ _ _ => rfl, ?_⟩
  intro cb b e h
  exact ⟨by simp [runCallback, h], rfl⟩

/-- Witness for C8 at a failing callback. -/
theorem fetch_error_wrapping_witness :
    ((fun _ : blockWithQuerier => some (GoError.base "cbfail")) ⟨"blk", 1, 2⟩
        = some (GoError.base "cbfail"))
    ∧ (runCallback (fun _ => some (GoError.base "cbfail")) ⟨"blk", 1, 2⟩).1
        = some (GoError.wrapped
            ("error running callback function for block " ++ "blk" ++ " err")
            (GoError.base "cbfail")) :=
  ⟨rfl, (fetch_error_wrapping.2.2.2.2 _ ⟨"blk", 1, 2⟩ _ rfl).1⟩

/-- Counterexample for C8 as stated: the error of the initial downloader
`fetch` call is returned by `Fetch` as-is, with no wrapping layer of
phase context added. -/
theorem fetch_setup_error_unwrapped :
    FetchModel (.error (GoError.base "downloader fetch failed")) (fun _ => none) 3 []
      = (FetchOutcome.err (GoError.base "downloader fetch failed"), [])
    ∧ hasPhaseContext (GoError.base "downloader fetch failed") = false :=
  ⟨rfl, rfl⟩

end Bloomshipper
